import Mathlib

/-!
# Verification of the nobsign message-signing library

Shallow embedding of `src/lib.rs` (crate `nobsign`): a `Signer` producing
`value.signature` tokens with HMAC-SHA1 under a derived key, and a
`TimestampSigner` embedding a little-endian 4-byte timestamp.

Strings are modelled as `List Char`; byte sequences as `List Nat` with values
below 256; `i32` values as `Int` with explicit wrapping into
`[-2^31, 2^31)` (release-mode wrapping semantics for casts and subtraction).
The external collaborators (HMAC-SHA1 from `ring`, URL-safe no-pad base64 from
the `base64` crate) are modelled concretely and executably below.
-/

namespace Nobsign

/-! ## 32-bit word primitives -/

/-- Rotate a 32-bit word left by `n` bits (arithmetic form: for `w < 2^32`
this equals the usual shift-or formulation). -/
def rotl (n w : Nat) : Nat :=
  (w * 2 ^ n + w / 2 ^ (32 - n)) % 4294967296

/-! ## UTF-8 encoding (`str::as_bytes` on Rust strings) -/

/-- UTF-8 encoding of one Unicode scalar value. -/
def utf8EncodeChar (c : Char) : List Nat :=
  let n := c.toNat
  if n < 128 then [n]
  else if n < 2048 then [192 + n / 64, 128 + n % 64]
  else if n < 65536 then [224 + n / 4096, 128 + n / 64 % 64, 128 + n % 64]
  else [240 + n / 262144, 128 + n / 4096 % 64, 128 + n / 64 % 64, 128 + n % 64]

/-- UTF-8 byte sequence of a string, as `str::as_bytes`. -/
def utf8Bytes : List Char → List Nat
  | [] => []
  | c :: rest => utf8EncodeChar c ++ utf8Bytes rest

/-! ## SHA-1 (the `ring` crate's `digest::SHA1`, modelled per FIPS 180-4) -/

/-- SHA-1 round function: Ch, Parity, Maj, Parity over the four 20-round groups. -/
def sha1F (i b c d : Nat) : Nat :=
  if i < 20 then (b &&& c) ||| ((b ^^^ 4294967295) &&& d)
  else if i < 40 then b ^^^ c ^^^ d
  else if i < 60 then (b &&& c) ||| (b &&& d) ||| (c &&& d)
  else b ^^^ c ^^^ d

/-- SHA-1 round constants. -/
def sha1K (i : Nat) : Nat :=
  if i < 20 then 1518500249
  else if i < 40 then 1859775393
  else if i < 60 then 2400959708
  else 3395469782

/-- One pass of the 80 SHA-1 rounds over the message schedule. -/
def sha1Rounds : Nat → Nat × Nat × Nat × Nat × Nat → List Nat → Nat × Nat × Nat × Nat × Nat
  | _, st, [] => st
  | i, (a, b, c, d, e), w :: rest =>
      sha1Rounds (i + 1)
        ((rotl 5 a + sha1F i b c d + e + sha1K i + w) % 4294967296, a, rotl 30 b, c, d)
        rest

/-- Message-schedule extension: `acc` holds the words produced so far, most
recent first; each new word is `rotl 1` of the xor of words 3, 8, 14 and 16
positions back. -/
def sha1Ws : List Nat → Nat → List Nat
  | acc, 0 => acc.reverse
  | acc, n + 1 =>
      sha1Ws (rotl 1 (acc.getD 2 0 ^^^ acc.getD 7 0 ^^^ acc.getD 13 0 ^^^ acc.getD 15 0) :: acc) n

/-- Big-endian assembly of 32-bit words from bytes. -/
def bytesToWords : List Nat → List Nat
  | b0 :: b1 :: b2 :: b3 :: rest =>
      (b0 * 16777216 + b1 * 65536 + b2 * 256 + b3) :: bytesToWords rest
  | _ => []

/-- SHA-1 compression of one 64-byte block into the running state. -/
def sha1Compress (h : Nat × Nat × Nat × Nat × Nat) (block : List Nat) :
    Nat × Nat × Nat × Nat × Nat :=
  match h, sha1Rounds 0 h (sha1Ws (bytesToWords block).reverse 64) with
  | (h0, h1, h2, h3, h4), (a, b, c, d, e) =>
      ((h0 + a) % 4294967296, (h1 + b) % 4294967296, (h2 + c) % 4294967296,
       (h3 + d) % 4294967296, (h4 + e) % 4294967296)

/-- Big-endian 8-byte encoding of the 64-bit message bit length. -/
def lenBytesBE (n : Nat) : List Nat :=
  [n / 72057594037927936 % 256, n / 281474976710656 % 256, n / 1099511627776 % 256,
   n / 4294967296 % 256, n / 16777216 % 256, n / 65536 % 256, n / 256 % 256, n % 256]

/-- SHA-1 padding: a `0x80` byte, zeros to 56 mod 64, then the bit length. -/
def sha1Pad (msg : List Nat) : List Nat :=
  msg ++ 128 :: List.replicate ((119 - msg.length % 64) % 64) 0 ++ lenBytesBE (msg.length * 8)

/-- Split a padded message into 64-byte blocks. The first argument is fuel
making the recursion structural; it is called with the list's length, which
bounds the number of blocks. -/
def toBlocksAux : Nat → List Nat → List (List Nat)
  | 0, _ => []
  | _ + 1, [] => []
  | fuel + 1, b :: l => ((b :: l).take 64) :: toBlocksAux fuel ((b :: l).drop 64)

/-- Split a padded message into 64-byte blocks. -/
def toBlocks (l : List Nat) : List (List Nat) :=
  toBlocksAux l.length l

/-- Big-endian bytes of a 32-bit word. -/
def wordBytesBE (w : Nat) : List Nat :=
  [w / 16777216 % 256, w / 65536 % 256, w / 256 % 256, w % 256]

/-- Serialize the final SHA-1 state to the 20-byte digest. -/
def sha1Out (st : Nat × Nat × Nat × Nat × Nat) : List Nat :=
  wordBytesBE st.1 ++ wordBytesBE st.2.1 ++ wordBytesBE st.2.2.1 ++
    wordBytesBE st.2.2.2.1 ++ wordBytesBE st.2.2.2.2

/-- SHA-1 digest of a byte sequence. -/
def sha1 (msg : List Nat) : List Nat :=
  sha1Out ((toBlocks (sha1Pad msg)).foldl sha1Compress
    (1732584193, 4023233417, 2562383102, 271733878, 3285377520))

/-- HMAC-SHA1 (RFC 2104), as performed by `ring::hmac` with a
`SigningKey::new(SHA1, key)`: keys longer than the 64-byte block are hashed
first, then zero-padded; ipad is `0x36`, opad is `0x5c`. -/
def hmacSha1 (key msg : List Nat) : List Nat :=
  let k0 := if 64 < key.length then sha1 key else key
  let k := k0 ++ List.replicate (64 - k0.length) 0
  sha1 ((k.map fun b => b ^^^ 92) ++ sha1 ((k.map fun b => b ^^^ 54) ++ msg))

/-! ## URL-safe no-padding base64 (the `base64` crate, `URL_SAFE_NO_PAD`) -/

/-- Character of the URL-safe base64 alphabet for a sextet. -/
def b64Char (n : Nat) : Char :=
  if n < 26 then Char.ofNat (65 + n)
  else if n < 52 then Char.ofNat (97 + (n - 26))
  else if n < 62 then Char.ofNat (48 + (n - 52))
  else if n = 62 then '-'
  else '_'

/-- Sextet value of a character of the URL-safe base64 alphabet; `none` on any
character outside the alphabet. -/
def b64CharDecode (c : Char) : Option Nat :=
  let n := c.toNat
  if 65 ≤ n ∧ n ≤ 90 then some (n - 65)
  else if 97 ≤ n ∧ n ≤ 122 then some (26 + (n - 97))
  else if 48 ≤ n ∧ n ≤ 57 then some (52 + (n - 48))
  else if n = 45 then some 62
  else if n = 95 then some 63
  else none

/-- Base64 encoding, URL-safe alphabet, no padding characters. -/
def b64encode : List Nat → List Char
  | b0 :: b1 :: b2 :: rest =>
      b64Char (b0 / 4) :: b64Char (b0 % 4 * 16 + b1 / 16) ::
        b64Char (b1 % 16 * 4 + b2 / 64) :: b64Char (b2 % 64) :: b64encode rest
  | [b0, b1] => [b64Char (b0 / 4), b64Char (b0 % 4 * 16 + b1 / 16), b64Char (b1 % 16 * 4)]
  | [b0] => [b64Char (b0 / 4), b64Char (b0 % 4 * 16)]
  | [] => []

/-- Strict base64 decoding, URL-safe alphabet, no padding accepted: fails on
characters outside the alphabet, on a leftover length of 1, and on non-zero
trailing bits in the final partial group. -/
def b64decode : List Char → Option (List Nat)
  | [] => some []
  | [c0] =>
      match b64CharDecode c0 with
      | _ => none
  | [c0, c1] =>
      match b64CharDecode c0, b64CharDecode c1 with
      | some s0, some s1 => if s1 % 16 = 0 then some [s0 * 4 + s1 / 16] else none
      | _, _ => none
  | [c0, c1, c2] =>
      match b64CharDecode c0, b64CharDecode c1, b64CharDecode c2 with
      | some s0, some s1, some s2 =>
          if s2 % 4 = 0 then some [s0 * 4 + s1 / 16, s1 % 16 * 16 + s2 / 4] else none
      | _, _, _ => none
  | c0 :: c1 :: c2 :: c3 :: rest =>
      match b64CharDecode c0, b64CharDecode c1, b64CharDecode c2, b64CharDecode c3,
          b64decode rest with
      | some s0, some s1, some s2, some s3, some bs =>
          some ((s0 * 4 + s1 / 16) :: (s1 % 16 * 16 + s2 / 4) :: (s2 % 4 * 64 + s3) :: bs)
      | _, _, _, _, _ => none

/-! ## Right split (Rust `str::rsplitn(2, sep)`) -/

/-- Split at the LAST occurrence of `sep`: `some (before, after)`, or `none`
when `sep` does not occur. -/
def rsplitOnce (sep : Char) : List Char → Option (List Char × List Char)
  | [] => none
  | c :: rest =>
      match rsplitOnce sep rest with
      | some (v, s) => some (c :: v, s)
      | none => if c = sep then some ([], rest) else none

/-- The list of pieces yielded by `value.rsplitn(2, sep)`, in iteration order
(rightmost piece first): one piece when `sep` is absent, else the part after
the last `sep` followed by the part before it. -/
def rsplitn2 (sep : Char) (s : List Char) : List (List Char) :=
  match rsplitOnce sep s with
  | none => [s]
  | some (v, a) => [a, v]

/-! ## Error type (`enum Error`) -/

/-- The four error variants of `nobsign::Error`. -/
inductive Error
  | BadData
  | BadSignature
  | BadTimeSignature
  | SignatureExpired
deriving DecidableEq

/-! ## Signer

The `Signer` struct holds a fixed separator `'.'` and a signing key derived
from the secret; we carry the secret and recompute the derived key, which is
observationally identical since the struct is immutable. -/

/-- Derived signing key: `HMAC_SHA1(secret, "nobi.Signer")`, as built by
`Signer::new` via `hmac::sign(initial_key, b"nobi.Signer")`. -/
def deriveKey (secret : List Nat) : List Nat :=
  hmacSha1 secret (utf8Bytes "nobi.Signer".data)

/-- Raw HMAC bytes of a value under the derived key (the MAC computed both by
`Signer::signature` and by `hmac::verify_with_own_key` in `Signer::unsign`). -/
def signatureBytes (secret : List Nat) (value : List Char) : List Nat :=
  hmacSha1 (deriveKey secret) (utf8Bytes value)

/-- The `Signer::signature` method: base64 of the HMAC. -/
def signature (secret : List Nat) (value : List Char) : List Char :=
  b64encode (signatureBytes secret value)

/-- The `Signer::sign` method: `format!("{}{}{}", value, '.', signature)`. -/
def Signer.sign (secret : List Nat) (value : List Char) : List Char :=
  value ++ '.' :: signature secret value

/-- The `Signer::unsign` method: right-split once on `'.'`, base64-decode the
signature piece, recompute the MAC and compare (the comparison inside
`hmac::verify_with_own_key` is constant-time; functionally it is equality). -/
def Signer.unsign (secret : List Nat) (token : List Char) : Except Error (List Char) :=
  match rsplitn2 '.' token with
  | [] => .error .BadSignature
  | [_] => .error .BadSignature
  | sig :: value :: _ =>
      match b64decode sig with
      | none => .error .BadSignature
      | some sigBytes =>
          if signatureBytes secret value = sigBytes then .ok value
          else .error .BadSignature

/-! ## TimestampSigner

The wall clock is an explicit parameter `now`: seconds of `SystemTime::now()`
since the Unix epoch. -/

/-- The custom epoch offset (2011-01-01T00:00:00Z), constant `EPOCH`. -/
def EPOCH : Nat := 1293840000

/-- Wrap an integer into the `i32` range `[-2^31, 2^31)` (the semantics of
`as i32` and of release-mode `i32` arithmetic). -/
def wrapI32 (n : Int) : Int :=
  (n + 2147483648) % 4294967296 - 2147483648

/-- The `TimestampSigner::get_timestamp` method: `(now - EPOCH) as i32`. -/
def getTimestamp (now : Nat) : Int :=
  wrapI32 ((now : Int) - (EPOCH : Int))

/-- The `int_to_bytes` helper: little-endian 4-byte two's-complement encoding
of an `i32` (`LittleEndian::write_i32`). -/
def int_to_bytes (n : Int) : List Nat :=
  [(n % 4294967296).toNat % 256, (n % 4294967296).toNat / 256 % 256,
   (n % 4294967296).toNat / 65536 % 256, (n % 4294967296).toNat / 16777216 % 256]

/-- The `bytes_to_int` helper: `assert!(n.len() == 4)` — the panic on any
other length is modelled as `none` — then `LittleEndian::read_i32`. -/
def bytes_to_int (l : List Nat) : Option Int :=
  match l with
  | [b0, b1, b2, b3] =>
      some (wrapI32 ((b0 : Int) + 256 * (b1 : Int) + 65536 * (b2 : Int) + 16777216 * (b3 : Int)))
  | _ => none

/-- The `TimestampSigner::sign` method: append the base64 timestamp, then the
signature of the composite. -/
def TimestampSigner.sign (secret : List Nat) (now : Nat) (value : List Char) : List Char :=
  let timestamp := b64encode (int_to_bytes (getTimestamp now))
  let composite := value ++ '.' :: timestamp
  composite ++ '.' :: signature secret composite

/-- The `TimestampSigner::unsign` method. `max_age` is the `u32` argument;
the age comparison casts it with `as i32`. The overall `none` marks the one
potential panic (the assertion inside `bytes_to_int`); every other outcome is
`some` of the typed result. -/
def TimestampSigner.unsign (secret : List Nat) (now : Nat) (token : List Char)
    (max_age : Nat) : Option (Except Error (List Char)) :=
  match Signer.unsign secret token with
  | .error e => some (.error e)
  | .ok result =>
      if '.' ∈ result then
        match rsplitn2 '.' result with
        | [] => some (.error .BadSignature)
        | [_] => some (.error .BadSignature)
        | tsStr :: value :: _ =>
            match b64decode tsStr with
            | none => some (.error .BadTimeSignature)
            | some tsBytes =>
                if tsBytes.length ≠ 4 then some (.error .BadTimeSignature)
                else
                  match bytes_to_int tsBytes with
                  | none => none
                  | some ts =>
                      if wrapI32 (getTimestamp now - ts) > wrapI32 (max_age : Int) then
                        some (.error .SignatureExpired)
                      else some (.ok value)
      else some (.error .BadTimeSignature)

/-! ## Byte-range lemmas -/

theorem wordBytesBE_lt {w b : Nat} (hb : b ∈ wordBytesBE w) : b < 256 := by
  simp only [wordBytesBE, List.mem_cons, List.not_mem_nil, or_false] at hb
  rcases hb with rfl | rfl | rfl | rfl <;> omega

theorem sha1_lt {m : List Nat} {b : Nat} (hb : b ∈ sha1 m) : b < 256 := by
  simp only [sha1, sha1Out, List.mem_append] at hb
  rcases hb with ((((h | h) | h) | h) | h) <;> exact wordBytesBE_lt h

theorem signatureBytes_lt {secret : List Nat} {value : List Char} {b : Nat}
    (hb : b ∈ signatureBytes secret value) : b < 256 := by
  simp only [signatureBytes, hmacSha1] at hb
  exact sha1_lt hb

theorem int_to_bytes_lt {n : Int} {b : Nat} (hb : b ∈ int_to_bytes n) : b < 256 := by
  simp only [int_to_bytes, List.mem_cons, List.not_mem_nil, or_false] at hb
  rcases hb with rfl | rfl | rfl | rfl <;> omega

/-! ## Base64 lemmas -/

theorem b64CharDecode_b64Char : ∀ n < 64, b64CharDecode (b64Char n) = some n := by decide

theorem b64Char_ne_dot : ∀ n < 64, b64Char n ≠ '.' := by decide

/-- Strict decoding inverts encoding on genuine byte sequences. -/
theorem b64decode_b64encode (bs : List Nat) (h : ∀ b ∈ bs, b < 256) :
    b64decode (b64encode bs) = some bs := by
  induction bs using b64encode.induct with
  | case1 b0 b1 b2 rest ih =>
      have h0 : b0 < 256 := h _ (by simp)
      have h1 : b1 < 256 := h _ (by simp)
      have h2 : b2 < 256 := h _ (by simp)
      have ih := ih fun b hb => h b (by simp [hb])
      simp only [b64encode, b64decode,
        b64CharDecode_b64Char _ (by omega : b0 / 4 < 64),
        b64CharDecode_b64Char _ (by omega : b0 % 4 * 16 + b1 / 16 < 64),
        b64CharDecode_b64Char _ (by omega : b1 % 16 * 4 + b2 / 64 < 64),
        b64CharDecode_b64Char _ (by omega : b2 % 64 < 64), ih,
        Option.some.injEq, List.cons.injEq]
      exact ⟨by omega, by omega, by omega, trivial⟩
  | case2 b0 b1 =>
      have h0 : b0 < 256 := h _ (by simp)
      have h1 : b1 < 256 := h _ (by simp)
      simp only [b64encode, b64decode,
        b64CharDecode_b64Char _ (by omega : b0 / 4 < 64),
        b64CharDecode_b64Char _ (by omega : b0 % 4 * 16 + b1 / 16 < 64),
        b64CharDecode_b64Char _ (by omega : b1 % 16 * 4 < 64)]
      rw [if_pos (by omega)]
      simp only [Option.some.injEq, List.cons.injEq]
      exact ⟨by omega, by omega, trivial⟩
  | case3 b0 =>
      have h0 : b0 < 256 := h _ (by simp)
      simp only [b64encode, b64decode,
        b64CharDecode_b64Char _ (by omega : b0 / 4 < 64),
        b64CharDecode_b64Char _ (by omega : b0 % 4 * 16 < 64)]
      rw [if_pos (by omega)]
      simp only [Option.some.injEq, List.cons.injEq, and_true]
      omega
  | case4 => rfl

/-- The separator never occurs in an encoded signature or timestamp. -/
theorem dot_not_mem_b64encode (bs : List Nat) (h : ∀ b ∈ bs, b < 256) :
    '.' ∉ b64encode bs := by
  induction bs using b64encode.induct with
  | case1 b0 b1 b2 rest ih =>
      have h0 : b0 < 256 := h _ (by simp)
      have h1 : b1 < 256 := h _ (by simp)
      have h2 : b2 < 256 := h _ (by simp)
      have ih := ih fun b hb => h b (by simp [hb])
      simp only [b64encode, List.mem_cons, not_or]
      refine ⟨?_, ?_, ?_, ?_, ih⟩ <;>
        exact fun hc => b64Char_ne_dot _ (by omega) hc.symm
  | case2 b0 b1 =>
      have h0 : b0 < 256 := h _ (by simp)
      have h1 : b1 < 256 := h _ (by simp)
      simp only [b64encode, List.mem_cons, List.not_mem_nil, or_false, not_or]
      refine ⟨?_, ?_, ?_⟩ <;> exact fun hc => b64Char_ne_dot _ (by omega) hc.symm
  | case3 b0 =>
      have h0 : b0 < 256 := h _ (by simp)
      simp only [b64encode, List.mem_cons, List.not_mem_nil, or_false, not_or]
      refine ⟨?_, ?_⟩ <;> exact fun hc => b64Char_ne_dot _ (by omega) hc.symm
  | case4 => simp [b64encode]

/-! ## Right-split lemmas -/

theorem rsplitOnce_eq_none_iff (sep : Char) (l : List Char) :
    rsplitOnce sep l = none ↔ sep ∉ l := by
  induction l with
  | nil => simp [rsplitOnce]
  | cons c rest ih =>
      cases hr : rsplitOnce sep rest with
      | some p =>
          have hmem : sep ∈ rest := by
            by_contra hm
            rw [ih.mpr hm] at hr
            exact Option.noConfusion hr
          simp [rsplitOnce, hr, hmem]
      | none =>
          have hnm : sep ∉ rest := ih.mp hr
          by_cases hc : c = sep
          · simp [rsplitOnce, hr, hc, hnm]
          · simp only [rsplitOnce, hr, if_neg hc, List.mem_cons, not_or, true_iff]
            exact ⟨fun h => hc h.symm, hnm⟩

theorem rsplitOnce_append (sep : Char) (v enc : List Char) (h : sep ∉ enc) :
    rsplitOnce sep (v ++ sep :: enc) = some (v, enc) := by
  induction v with
  | nil => simp [rsplitOnce, (rsplitOnce_eq_none_iff sep enc).mpr h]
  | cons c rest ih => simp [rsplitOnce, ih]

theorem mem_of_rsplitOnce_eq_some {sep : Char} {l v s : List Char}
    (h : rsplitOnce sep l = some (v, s)) : sep ∈ l := by
  by_contra hmem
  rw [(rsplitOnce_eq_none_iff sep l).mpr hmem] at h
  exact Option.noConfusion h

/-! ## Signer round-trip -/

/-- Verifying a freshly produced `Signer` token recovers the value, for every
secret and every value, including values containing the separator. -/
theorem signer_unsign_sign (secret : List Nat) (value : List Char) :
    Signer.unsign secret (Signer.sign secret value) = .ok value := by
  have hlt : ∀ b ∈ signatureBytes secret value, b < 256 := fun b hb => signatureBytes_lt hb
  have hdot : '.' ∉ b64encode (signatureBytes secret value) :=
    dot_not_mem_b64encode _ hlt
  simp [Signer.sign, Signer.unsign, signature, rsplitn2,
    rsplitOnce_append '.' value _ hdot, b64decode_b64encode _ hlt]

/-! ## Timestamp codec lemmas -/

theorem wrapI32_lb (n : Int) : -2147483648 ≤ wrapI32 n := by
  simp only [wrapI32]
  omega

theorem wrapI32_ub (n : Int) : wrapI32 n < 2147483648 := by
  simp only [wrapI32]
  omega

theorem int_to_bytes_length (n : Int) : (int_to_bytes n).length = 4 := rfl

theorem bytes_to_int_int_to_bytes (n : Int) (h1 : -2147483648 ≤ n) (h2 : n < 2147483648) :
    bytes_to_int (int_to_bytes n) = some n := by
  simp only [int_to_bytes, bytes_to_int, wrapI32, Option.some.injEq]
  omega

/-! ## TimestampSigner round-trip characterization -/

/-- Verifying a `TimestampSigner` token signed at clock value `T` and checked
at clock value `now` always passes the structural steps and reduces to the
age comparison performed in `i32` arithmetic. -/
theorem ts_unsign_sign (secret : List Nat) (T now : Nat) (v : List Char) (max_age : Nat) :
    TimestampSigner.unsign secret now (TimestampSigner.sign secret T v) max_age =
      if wrapI32 (getTimestamp now - getTimestamp T) > wrapI32 (max_age : Int)
      then some (.error .SignatureExpired) else some (.ok v) := by
  have htlt : ∀ b ∈ int_to_bytes (getTimestamp T), b < 256 := fun b hb => int_to_bytes_lt hb
  have hdot : '.' ∉ b64encode (int_to_bytes (getTimestamp T)) := dot_not_mem_b64encode _ htlt
  have hts : bytes_to_int (int_to_bytes (getTimestamp T)) = some (getTimestamp T) :=
    bytes_to_int_int_to_bytes _ (wrapI32_lb _) (wrapI32_ub _)
  have hsign : TimestampSigner.sign secret T v
      = Signer.sign secret (v ++ '.' :: b64encode (int_to_bytes (getTimestamp T))) := rfl
  rw [hsign]
  simp only [TimestampSigner.unsign, signer_unsign_sign]
  rw [if_pos (by simp : ('.' : Char) ∈ v ++ '.' :: b64encode (int_to_bytes (getTimestamp T)))]
  simp only [rsplitn2, rsplitOnce_append _ _ _ hdot, b64decode_b64encode _ htlt, hts]
  rw [if_neg (by simp [int_to_bytes])]

/-! ## Claims -/

/-- C1 (counterexample): the claimed round-trip for EVERY `max_age ≥ 0` fails:
with `max_age = 2147483648` (one past `i32::MAX`), verifying immediately after
signing — same clock value, age 0 — returns `SignatureExpired`, because
`max_age as i32` is negative. -/
theorem C1_counterexample :
    TimestampSigner.unsign [] 1293840000 (TimestampSigner.sign [] 1293840000 ['a'])
      2147483648 = some (.error .SignatureExpired) := by
  rw [ts_unsign_sign, if_pos]
  simp only [getTimestamp, wrapI32, EPOCH]
  norm_num

/-- C1 (amended): for every secret, every value, and every
`max_age ≤ 2147483647`, verifying immediately after signing (same clock value
`now`) succeeds and returns the original value. -/
theorem C1_round_trip_with_timestamp (secret : List Nat) (v : List Char)
    (now max_age : Nat) (hma : max_age < 2147483648) :
    TimestampSigner.unsign secret now (TimestampSigner.sign secret now v) max_age
      = some (.ok v) := by
  have h : ¬(wrapI32 (getTimestamp now - getTimestamp now) > wrapI32 (max_age : Int)) := by
    simp only [sub_self, wrapI32]
    omega
  rw [ts_unsign_sign, if_neg h]

/-- C1 (witness): the amended round-trip at a concrete input. -/
theorem C1_witness :
    TimestampSigner.unsign [] 1293840000 (TimestampSigner.sign [] 1293840000 ['a']) 0
      = some (.ok ['a']) :=
  C1_round_trip_with_timestamp [] ['a'] 1293840000 0 (by norm_num)

/-- C2: for every secret and every value — the value is an arbitrary string,
in particular one that may contain the separator `'.'` — unsigning a freshly
signed token returns exactly the original value. -/
theorem C2_round_trip (secret : List Nat) (v : List Char) :
    Signer.unsign secret (Signer.sign secret v) = .ok v :=
  signer_unsign_sign secret v

/-- C3 (counterexample): the claimed boundary "succeeds whenever
`now - T ≤ max_age`" fails at `max_age = 2147483648`: a token aged one second
is rejected as `SignatureExpired` although `1 ≤ max_age`. -/
theorem C3_counterexample :
    TimestampSigner.unsign [] 1293840001 (TimestampSigner.sign [] 1293840000 ['c'])
      2147483648 = some (.error .SignatureExpired) := by
  rw [ts_unsign_sign, if_pos]
  simp only [getTimestamp, wrapI32, EPOCH]
  norm_num

/-- C3 (amended): for clock values in the representable range
(`EPOCH ≤ T ≤ now`, `now - EPOCH < 2^31`) and `max_age ≤ 2147483647`,
unsigning succeeds when `now - T ≤ max_age` — in particular the boundary
`now - T = max_age` succeeds (inclusive) — and fails with `SignatureExpired`
exactly when `now - T > max_age`. -/
theorem C3_expiry_boundary (secret : List Nat) (v : List Char) (T now max_age : Nat)
    (hT : EPOCH ≤ T) (hTnow : T ≤ now) (hrange : now - EPOCH < 2147483648)
    (hma : max_age < 2147483648) :
    (now - T ≤ max_age →
      TimestampSigner.unsign secret now (TimestampSigner.sign secret T v) max_age
        = some (.ok v)) ∧
    (max_age < now - T →
      TimestampSigner.unsign secret now (TimestampSigner.sign secret T v) max_age
        = some (.error .SignatureExpired)) := by
  have hcond : (wrapI32 (getTimestamp now - getTimestamp T) > wrapI32 (max_age : Int))
      ↔ (max_age < now - T) := by
    simp only [getTimestamp, wrapI32, EPOCH]
    omega
  constructor
  · intro hle
    rw [ts_unsign_sign, if_neg (fun hgt => absurd (hcond.mp hgt) (by omega))]
  · intro hlt
    rw [ts_unsign_sign, if_pos (hcond.mpr hlt)]

/-- C3 (witness): a token aged exactly `max_age` (the inclusive boundary) is
accepted. -/
theorem C3_witness :
    TimestampSigner.unsign [] 1293840005 (TimestampSigner.sign [] 1293840000 ['a']) 5
      = some (.ok ['a']) :=
  (C3_expiry_boundary [] ['a'] 1293840000 1293840005 5 (by norm_num [EPOCH]) (by norm_num)
    (by norm_num [EPOCH]) (by norm_num)).1 (by norm_num)

/-- C6: no lower bound on age is enforced: a token whose embedded timestamp
lies strictly in the future of the verifier's clock (`now < T`) is accepted
for any in-range `max_age`, its negative age passing the `age > max_age`
check. -/
theorem C6_future_timestamp_accepted (secret : List Nat) (v : List Char)
    (T now max_age : Nat) (h1 : EPOCH ≤ now) (h2 : now < T)
    (h3 : T - EPOCH < 2147483648) (h4 : max_age < 2147483648) :
    TimestampSigner.unsign secret now (TimestampSigner.sign secret T v) max_age
      = some (.ok v) := by
  have h : ¬(wrapI32 (getTimestamp now - getTimestamp T) > wrapI32 (max_age : Int)) := by
    simp only [getTimestamp, wrapI32, EPOCH]
    omega
  rw [ts_unsign_sign, if_neg h]

/-- C6 (witness): a token stamped 10 seconds in the future verifies with
`max_age = 0`. -/
theorem C6_witness :
    TimestampSigner.unsign [] 1293840000 (TimestampSigner.sign [] 1293840010 []) 0
      = some (.ok []) :=
  C6_future_timestamp_accepted [] [] 1293840010 1293840000 0 (by norm_num [EPOCH]) (by norm_num)
    (by norm_num [EPOCH]) (by norm_num)

/-- C10: for every `max_age` strictly above `i32::MAX` (and within `u32`),
unsigning a validly signed token whose timestamp is not in the future
(`T ≤ now`, clocks in the representable range) always fails with
`SignatureExpired`: `max_age as i32` is negative, so even age 0 exceeds it. -/
theorem C10_huge_max_age_always_expired (secret : List Nat) (v : List Char)
    (T now max_age : Nat) (h1 : EPOCH ≤ T) (h2 : T ≤ now)
    (h3 : now - EPOCH < 2147483648) (h4 : 2147483647 < max_age)
    (h5 : max_age < 4294967296) :
    TimestampSigner.unsign secret now (TimestampSigner.sign secret T v) max_age
      = some (.error .SignatureExpired) := by
  rw [ts_unsign_sign, if_pos]
  simp only [getTimestamp, wrapI32, EPOCH]
  omega

/-- C10 (witness): a fresh token (age 0) is rejected under
`max_age = 4000000000`. -/
theorem C10_witness :
    TimestampSigner.unsign [] 1293840001 (TimestampSigner.sign [] 1293840001 ['b'])
      4000000000 = some (.error .SignatureExpired) :=
  C10_huge_max_age_always_expired [] ['b'] 1293840001 1293840001 4000000000
    (by norm_num [EPOCH]) (by norm_num) (by norm_num [EPOCH]) (by norm_num) (by norm_num)

/-- A 4-byte list always decodes: the assertion inside `bytes_to_int` cannot
fire after the length check. -/
theorem bytes_to_int_ne_none {l : List Nat} (h : l.length = 4) : bytes_to_int l ≠ none := by
  match l, h with
  | [b0, b1, b2, b3], _ => simp [bytes_to_int]

/-- C4: whenever the outer signature verifies, every malformation of the
timestamp part — no separator in the recovered payload, a timestamp segment
that is not valid base64, or one whose decoding is not exactly 4 bytes —
produces `BadTimeSignature` (never `BadSignature`). -/
theorem C4_bad_time_signature (secret : List Nat) (now : Nat) (token : List Char)
    (max_age : Nat) (result : List Char)
    (hok : Signer.unsign secret token = .ok result)
    (hbad : '.' ∉ result ∨
      ∃ value tsStr, rsplitOnce '.' result = some (value, tsStr) ∧
        (b64decode tsStr = none ∨ ∃ bs, b64decode tsStr = some bs ∧ bs.length ≠ 4)) :
    TimestampSigner.unsign secret now token max_age = some (.error .BadTimeSignature) := by
  simp only [TimestampSigner.unsign, hok]
  rcases hbad with hnosep | ⟨value, tsStr, hsplit, hrest⟩
  · rw [if_neg hnosep]
  · rw [if_pos (mem_of_rsplitOnce_eq_some hsplit)]
    simp only [rsplitn2, hsplit]
    rcases hrest with hdec | ⟨bs, hdec, hlen⟩
    · simp only [hdec]
    · simp only [hdec]
      rw [if_pos hlen]

/-- C4 (witness): a token produced by the plain `Signer` — validly signed but
with no embedded timestamp — is rejected as `BadTimeSignature`. -/
theorem C4_witness :
    TimestampSigner.unsign [] 1293840000 (Signer.sign [] ['a']) 10
      = some (.error .BadTimeSignature) :=
  C4_bad_time_signature [] 1293840000 (Signer.sign [] ['a']) 10 ['a']
    (signer_unsign_sign [] ['a']) (Or.inl (by decide))

/-- C5: `Signer::unsign` returns `BadSignature` exactly when the token has no
separator, or its rightmost segment is not decodable URL-safe no-pad base64,
or the recomputed MAC of the value piece differs from the decoded signature;
when the MAC matches it returns the value piece unchanged; and `BadSignature`
is the only error it ever produces. -/
theorem C5_signer_unsign_cases (secret : List Nat) (token : List Char) :
    (Signer.unsign secret token = .error .BadSignature ↔
      '.' ∉ token ∨
      (∃ v s, rsplitOnce '.' token = some (v, s) ∧ b64decode s = none) ∨
      (∃ v s bs, rsplitOnce '.' token = some (v, s) ∧ b64decode s = some bs ∧
        signatureBytes secret v ≠ bs)) ∧
    (∀ v s bs, rsplitOnce '.' token = some (v, s) → b64decode s = some bs →
      signatureBytes secret v = bs → Signer.unsign secret token = .ok v) ∧
    (∀ e, Signer.unsign secret token = .error e → e = .BadSignature) := by
  rcases hsplit : rsplitOnce '.' token with _ | ⟨v, s⟩
  · have hnot : '.' ∉ token := (rsplitOnce_eq_none_iff _ _).mp hsplit
    have hval : Signer.unsign secret token = .error .BadSignature := by
      simp only [Signer.unsign, rsplitn2, hsplit]
    refine ⟨⟨fun _ => Or.inl hnot, fun _ => hval⟩, ?_, ?_⟩
    · intro v1 s1 bs1 hs1
      exact absurd hs1 (by simp)
    · intro e he
      rw [hval] at he
      injection he with h
      exact h.symm
  · have hmem : ('.' : Char) ∈ token := mem_of_rsplitOnce_eq_some hsplit
    rcases hdec : b64decode s with _ | bs
    · have hval : Signer.unsign secret token = .error .BadSignature := by
        simp only [Signer.unsign, rsplitn2, hsplit, hdec]
      refine ⟨⟨fun _ => Or.inr (Or.inl ⟨v, s, rfl, hdec⟩), fun _ => hval⟩, ?_, ?_⟩
      · intro v1 s1 bs1 hs1 hd1
        injection hs1 with h
        cases h
        rw [hdec] at hd1
        exact absurd hd1 (by simp)
      · intro e he
        rw [hval] at he
        injection he with h
        exact h.symm
    · by_cases hsig : signatureBytes secret v = bs
      · have hval : Signer.unsign secret token = .ok v := by
          simp only [Signer.unsign, rsplitn2, hsplit, hdec, if_pos hsig]
        refine ⟨⟨?_, ?_⟩, ?_, ?_⟩
        · intro h
          rw [hval] at h
          exact absurd h (by simp)
        · intro hrhs
          exfalso
          rcases hrhs with h | ⟨v1, s1, heq, hd⟩ | ⟨v1, s1, bs1, heq, hd, hne⟩
          · exact h hmem
          · injection heq with h
            cases h
            rw [hdec] at hd
            exact absurd hd (by simp)
          · injection heq with h
            cases h
            rw [hdec] at hd
            injection hd with h2
            subst h2
            exact hne hsig
        · intro v1 s1 bs1 hs1 hd1 hg1
          injection hs1 with h
          cases h
          rw [hval]
        · intro e he
          rw [hval] at he
          exact absurd he (by simp)
      · have hval : Signer.unsign secret token = .error .BadSignature := by
          simp only [Signer.unsign, rsplitn2, hsplit, hdec, if_neg hsig]
        refine ⟨⟨fun _ => Or.inr (Or.inr ⟨v, s, bs, rfl, hdec, hsig⟩), fun _ => hval⟩, ?_, ?_⟩
        · intro v1 s1 bs1 hs1 hd1 hg1
          injection hs1 with h
          cases h
          rw [hdec] at hd1
          injection hd1 with h2
          subst h2
          exact absurd hg1 hsig
        · intro e he
          rw [hval] at he
          injection he with h
          exact h.symm

/-- C5 (witness): a token without any separator is rejected with
`BadSignature`. -/
theorem C5_witness : Signer.unsign [] ['a'] = .error .BadSignature :=
  (C5_signer_unsign_cases [] ['a']).1.mpr (Or.inl (by decide))

/-- C7: neither verification routine can panic. `Signer.unsign` is total by
construction (every parse failure is a typed `Error`); `TimestampSigner.unsign`
is total as well: the `assert!(n.len() == 4)` inside `bytes_to_int` — the one
potential panic site, modelled as the `none` outcome — is unreachable, because
the `timestamp.len() != 4` check precedes the call. -/
theorem C7_no_panic (secret : List Nat) (now : Nat) (token : List Char) (max_age : Nat) :
    (TimestampSigner.unsign secret now token max_age).isSome = true := by
  simp only [TimestampSigner.unsign]
  split
  · rfl
  split
  · split
    · rfl
    · rfl
    · split
      · rfl
      · split
        · rfl
        · split
          · rename_i tsBytes hlen ts hnone
            exact absurd hnone (bytes_to_int_ne_none (by omega))
          · split
            · rfl
            · rfl
  · rfl

set_option maxRecDepth 100000 in
/-- C9: the fixed regression vector: with secret `"my-key"` and value
`"value"`, `Signer::sign` produces exactly the token
`"value.EWkF3-80sipsPgLQ01NuTuPb0jQ"`, and `Signer::unsign` of that token
returns the original value. -/
theorem C9_concrete_vector :
    Signer.sign (utf8Bytes "my-key".data) "value".data
        = "value.EWkF3-80sipsPgLQ01NuTuPb0jQ".data ∧
    Signer.unsign (utf8Bytes "my-key".data) "value.EWkF3-80sipsPgLQ01NuTuPb0jQ".data
        = .ok "value".data := by
  constructor
  · decide
  · rfl

end Nobsign

